import Mathlib

/-!
Shallow embedding of the feed reconciliation engine and diff highlighter of
`src/main.py` (dday-telegram).  Pure string/HTML helpers are translated
directly; the stateful parts (peewee `Article` store, HTTP transport) are
embedded as explicit state passing: the store is a `List Article` in row
insertion order (row identity = list position), and each outbound HTTP request
is resolved by an oracle value (`HttpOutcome`) supplied as an argument.
`difflib.ndiff` is an external library collaborator; it is modelled as a
character-level edit script (spec section 4.2: each position classified as
common / only-in-first / only-in-second), produced by a concrete LCS-based
diff, and the safety results about the consuming code are proved for every
edit script whose keep/delete projection spells the first string.
-/

/-- Python substring prefix test on character lists (`str.startswith`). -/
def isPrefixChars : List Char → List Char → Bool
  | [], _ => true
  | _ :: _, [] => false
  | a :: as, b :: bs => a == b && isPrefixChars as bs

/-- Python `needle in hay` substring containment on character lists. -/
def containsSub (needle : List Char) : List Char → Bool
  | [] => isPrefixChars needle []
  | c :: rest => isPrefixChars needle (c :: rest) || containsSub needle rest

/-- A parsed URL, the structured view `urllib.parse.urlparse` gives of a link.
`geturl`/`urlparse` round-tripping is modelled as the identity on this
structure; the netloc is kept as a character list because the code inspects it
with Python substring containment. -/
structure Url where
  scheme : String
  netloc : List Char
  path : String
deriving DecidableEq, BEq, Repr, Inhabited

/-- Body of `parse_url` after `urlparse` (src/main.py lines 67-70): if the
string `"www"` does not occur in the netloc, prepend `"www."`. -/
def canonicalizeUrl (u : Url) : Url :=
  if containsSub "www".toList u.netloc then u
  else { u with netloc := 'w' :: 'w' :: 'w' :: '.' :: u.netloc }

/-- A feed entry as `feedparser` hands it to the engine (external input):
`links` holds the permalink first and the image link second, `updated` is the
raw updated string and `published_parsed`/`updated_parsed` the epoch values of
the parsed timestamps. -/
structure Entry where
  title : String
  summary : String
  links : List Url
  published_parsed : Int
  updated_parsed : Int
  updated : String
deriving DecidableEq, Repr, Inhabited

/-- Function `parse_url` (src/main.py lines 64-70): canonicalize `entry.links[0]`. -/
def parse_url (e : Entry) : Url :=
  canonicalizeUrl e.links.headI

/-- ASCII whitespace, Python regex `\s` (unicode whitespace beyond ASCII is not
modelled). -/
def isSpaceChar (c : Char) : Bool :=
  c == ' ' || c == '\t' || c == '\n' || c == '\r' || c == '\x0b' || c == '\x0c'

/-- Length consumed by the regex fragment `.*CLOSE` at the current position:
the greedy `.*` matches the longest newline-free stretch after which the
literal `close` matches; returns `k + close.length` for the greatest such `k`,
`none` when the pattern cannot match here. -/
def dotStarCloseLen (close rest : List Char) : Option Nat :=
  let nlFree := (rest.takeWhile (fun c => c != '\n')).length
  (List.range (nlFree + 1)).reverse.findSome? fun k =>
    if isPrefixChars close (rest.drop k) then some (k + close.length) else none

/-- Python `re.sub(opn + ".*" + close, "", s)`: repeatedly delete the
leftmost-then-greedy match of the literal `opn`, a newline-free gap, and the
literal `close`, resuming after each deletion.  Structural on a fuel argument
(started at the list length, which bounds the recursion depth) so the
definition evaluates inside the kernel. -/
def subPatternGo (opn close : List Char) : Nat → List Char → List Char
  | _, [] => []
  | 0, l => l
  | fuel + 1, c :: rest =>
    if isPrefixChars opn (c :: rest) then
      match dotStarCloseLen close ((c :: rest).drop opn.length) with
      | some consumed => subPatternGo opn close fuel (rest.drop (opn.length + consumed - 1))
      | none => c :: subPatternGo opn close fuel rest
    else c :: subPatternGo opn close fuel rest

/-- Entry point of the `.*`-pattern deletion. -/
def subPattern (opn close : List Char) (l : List Char) : List Char :=
  subPatternGo opn close l.length l

/-- Python `re.sub(r"\s+", " ", s)`: collapse each maximal whitespace run to a
single space (fuel as in `subPatternGo`). -/
def collapseWsGo : Nat → List Char → List Char
  | _, [] => []
  | 0, l => l
  | fuel + 1, c :: rest =>
    if isSpaceChar c then ' ' :: collapseWsGo fuel (rest.dropWhile isSpaceChar)
    else c :: collapseWsGo fuel rest

/-- Entry point of the whitespace collapse. -/
def collapseWs (l : List Char) : List Char :=
  collapseWsGo l.length l

/-- Function `strip_description` (src/main.py lines 338-342): drop `<img.*/>` and
`<a.*/a>` fragments, then collapse whitespace. -/
def strip_description (description : String) : String :=
  let d1 := subPattern "<img".toList "/>".toList description.toList
  let d2 := subPattern "<a".toList "/a>".toList d1
  String.mk (collapseWs d2)

/-- Python `str.strip()`: drop leading and trailing whitespace (structural, so
it evaluates inside the kernel, unlike `String.trim`). -/
def pyStrip (s : String) : String :=
  String.mk (((s.toList.dropWhile Char.isWhitespace).reverse.dropWhile
    Char.isWhitespace).reverse)

/-- Function `telegram_escape` (src/main.py lines 335-336). -/
def telegram_escape (text : String) : String :=
  ((text.replace "&" "&amp;").replace "<" "&lt;").replace ">" "&gt;"

/-- The stored `Article` row (src/main.py lines 42-52).  The autoincrement
`id` is not modelled: row identity is the position in the store list. -/
structure Article where
  title : String
  description : String
  link : Url
  image : Url
  published : Int
  updated : Int
  telegram_message_id : Option Int
deriving DecidableEq, Repr, Inhabited

/-- The `TelegramMessage` dataclass (src/main.py lines 55-61). -/
structure TelegramMessage where
  title : String
  link : Url
  tags : List String
  description : String
  image : Url
deriving DecidableEq, Repr, Inhabited

/-- Python truthiness of an optional integer field (`None` and `0` are falsy),
as used on `telegram_message_id`. -/
def truthyOptInt : Option Int → Bool
  | none => false
  | some v => decide (v ≠ 0)

/-- Python truthiness of an optional string (`None` and `""` are falsy). -/
def truthyOptStr : Option String → Bool
  | none => false
  | some s => decide (s ≠ "")

/-- Oracle for one `requests.post` call to the Telegram API: either the
request raises a `RequestException`, or it completes with a status code and
(for a 200) the `message_id` found in the response JSON. -/
inductive HttpOutcome where
  | raises
  | status (code : Nat) (message_id : Int)
deriving DecidableEq, Repr

/-- Which Telegram endpoint a `send_message` invocation hit: an edit of the
given remote message, or a fresh `sendPhoto` post. -/
inductive PubCall where
  | editMessageCaption (message_id : Int)
  | sendPhoto
deriving DecidableEq, Repr

/-- Function `send_message` (src/main.py lines 212-260), with the transport resolved by
`out`.  Returns the endpoint hit and either the resulting message id or an
uncaught `RequestException` (`Except.error`).  Faithful details: the edit
endpoint is chosen only when both `telegram_message_id` and `updated_time` are
truthy; a non-200 response returns `telegram_message_id` without raising
whenever `telegram_message_id` is truthy (lines 250-254), and otherwise
`raise_for_status` raises (lines 256-258). -/
def send_message (message : TelegramMessage) (telegram_message_id : Option Int)
    (updated_time : Option String) (out : HttpOutcome) : PubCall × Except Unit Int :=
  let call :=
    if truthyOptInt telegram_message_id && truthyOptStr updated_time then
      PubCall.editMessageCaption (telegram_message_id.getD 0)
    else
      PubCall.sendPhoto
  match out with
  | .raises => (call, .error ())
  | .status code mid =>
    if code ≠ 200 && truthyOptInt telegram_message_id then
      (call, .ok (telegram_message_id.getD 0))
    else if code ≠ 200 then
      (call, .error ())
    else
      (call, .ok mid)

/-- Lookup `Article.get_or_none(link=...)`: index of the first stored row with the
given link, `none` when no row matches. -/
def get_or_none (store : List Article) (link : Url) : Option Nat :=
  store.findIdx? (fun a => a.link == link)

instance {ε α : Type _} [DecidableEq ε] [DecidableEq α] : DecidableEq (Except ε α) :=
  fun x y =>
  match x, y with
  | .error a, .error b =>
    if h : a = b then isTrue (by rw [h]) else isFalse (fun hc => h (Except.error.inj hc))
  | .error _, .ok _ => isFalse (fun hc => Except.noConfusion hc)
  | .ok _, .error _ => isFalse (fun hc => Except.noConfusion hc)
  | .ok a, .ok b =>
    if h : a = b then isTrue (by rw [h]) else isFalse (fun hc => h (Except.ok.inj hc))

/-- Result of processing one entry (or one cycle): the Telegram calls issued,
and either the resulting store or an uncaught exception aborting the cycle. -/
structure StepResult where
  calls : List PubCall
  result : Except Unit (List Article)
deriving DecidableEq, Repr

/-- The `TelegramMessage` built by `process_new_article` (src/main.py lines
111-117) from the entry and the fetched tags. -/
def build_message (entry : Entry) (tags : List String) : TelegramMessage :=
  { title := pyStrip entry.title
    description := strip_description entry.summary
    link := parse_url entry
    image := entry.links.getD 1 default
    tags := tags }

/-- The row persisted by `Article.create` on a successful send
(src/main.py lines 151-159). -/
def created_article (entry : Entry) (message : TelegramMessage) (mid : Int) : Article :=
  { title := message.title
    description := message.description
    link := message.link
    image := message.image
    published := entry.published_parsed
    updated := entry.updated_parsed
    telegram_message_id := some mid }

/-- Function `process_new_article` (src/main.py lines 108-159).  `fetchResult` resolves
`fetch_article_details` (its `RequestException`s are not caught and abort the
cycle); `httpResult` resolves the single `send_message` transport call.
Branches: matching row with falsy `telegram_message_id` → advance `updated`
and skip (lines 124-129); matching row with truthy id → edit, returning the
store unchanged when the edit raises (lines 131-141); no matching row → send,
returning the store unchanged when the send raises, otherwise persist a new
row (lines 144-159). -/
def process_new_article (entry : Entry) (store : List Article)
    (fetchResult : Except Unit (List String)) (httpResult : HttpOutcome) : StepResult :=
  match fetchResult with
  | .error _ => { calls := [], result := .error () }
  | .ok tags =>
    let message : TelegramMessage := build_message entry tags
    match get_or_none store (parse_url entry) with
    | some idx =>
      let article := store.getD idx default
      if truthyOptInt article.telegram_message_id then
        let sent := send_message message article.telegram_message_id (some entry.updated) httpResult
        match sent.2 with
        | .error _ => { calls := [sent.1], result := .ok store }
        | .ok _ =>
          { calls := [sent.1]
            result := .ok (store.set idx
              { article with
                title := entry.title
                link := parse_url entry
                updated := entry.updated_parsed }) }
      else
        { calls := []
          result := .ok (store.set idx { article with updated := entry.updated_parsed }) }
    | none =>
      let sent := send_message message none none httpResult
      match sent.2 with
      | .error _ => { calls := [sent.1], result := .ok store }
      | .ok mid =>
        { calls := [sent.1]
          result := .ok (store ++ [created_article entry message mid]) }

/-- The row inserted by `first_run` for one entry (src/main.py lines 94-104):
no Telegram call, `telegram_message_id = None`. -/
def first_run_article (entry : Entry) : Article :=
  { title := pyStrip entry.title
    description := strip_description entry.summary
    link := parse_url entry
    image := entry.links.getD 1 default
    published := entry.published_parsed
    updated := entry.updated_parsed
    telegram_message_id := none }

/-- Function `first_run` (src/main.py lines 91-105): insert one row per entry, iterating
`reversed(feed.entries)` (oldest first since the feed lists newest first). -/
def first_run (feed : List Entry) : List Article :=
  feed.reverse.map first_run_article

/-- Per-entry oracle for a cycle: outcomes of the detail fetch and of the one
possible Telegram call. -/
structure EntryOracle where
  fetchResult : Except Unit (List String)
  httpResult : HttpOutcome
deriving Repr

/-- Loop body of `check` (src/main.py lines 82-86): each entry of
`reversed(feed.entries)` is processed only when `get_or_none` finds no row for
its canonical link (the updated-time comparison on line 85 is commented out);
an uncaught exception aborts the remaining entries. -/
def check_loop : List (Entry × EntryOracle) → List Article → List PubCall → StepResult
  | [], store, calls => { calls := calls, result := .ok store }
  | (entry, oracle) :: rest, store, calls =>
    if (get_or_none store (parse_url entry)).isNone then
      let step := process_new_article entry store oracle.fetchResult oracle.httpResult
      match step.result with
      | .error _ => { calls := calls ++ step.calls, result := .error () }
      | .ok store2 => check_loop rest store2 (calls ++ step.calls)
    else
      check_loop rest store calls

/-- Function `check` (src/main.py lines 73-88): an empty store triggers `first_run`
with no Telegram calls; otherwise each reversed feed entry runs through the
loop, with `oracles` aligned to `feed.reverse`. -/
def check (feed : List Entry) (oracles : List EntryOracle) (store : List Article) : StepResult :=
  if store.length = 0 then
    { calls := [], result := .ok (first_run feed) }
  else
    check_loop (feed.reverse.zip oracles) store []

/-- One line of a character-level `ndiff` edit script: a character common to
both strings (tag `' '`), present only in the first (tag `'-'`), or present
only in the second (tag `'+'`).  For character input `ndiff` emits no `'?'`
hint lines (two single-character lines have similarity ratio 0 or 1, never in
the hint range). -/
inductive EditItem where
  | keep (c : Char)
  | del (c : Char)
  | ins (c : Char)
deriving DecidableEq, Repr

/-- The first string as recovered from an edit script: the characters of its
`' '` and `'-'` lines in order (difflib's `restore(diff, 1)` contract). -/
def fromFirst (script : List EditItem) : List Char :=
  script.filterMap fun it =>
    match it with
    | .keep c => some c
    | .del c => some c
    | .ins _ => none

/-- The second string as recovered from an edit script (`restore(diff, 2)`). -/
def fromSecond (script : List EditItem) : List Char :=
  script.filterMap fun it =>
    match it with
    | .keep c => some c
    | .del _ => none
    | .ins c => some c

/-- Longest-common-subsequence length, used to pick branches of the modelled
diff. -/
def lcsLen : List Char → List Char → Nat
  | [], _ => 0
  | _ :: _, [] => 0
  | a :: as, b :: bs =>
    if a = b then lcsLen as bs + 1
    else max (lcsLen (a :: as) bs) (lcsLen as (b :: bs))
termination_by a b => a.length + b.length

/-- Model of `difflib.ndiff` on two character sequences, written (per spec section
4.2) as a classic sequence diff classifying each position as common,
only-in-first, or only-in-second; difflib's junk/ratio heuristics only change
which common subsequence is chosen, not the shape of the script. -/
def ndiffModel : List Char → List Char → List EditItem
  | [], bs => bs.map .ins
  | a :: as, [] => .del a :: ndiffModel as []
  | a :: as, b :: bs =>
    if a = b then .keep a :: ndiffModel as bs
    else if lcsLen as (b :: bs) ≥ lcsLen (a :: as) bs then .del a :: ndiffModel as (b :: bs)
    else .ins b :: ndiffModel (a :: as) bs
termination_by a b => a.length + b.length

/-- The index-collection loop of `get_diff_removals` (src/main.py lines
307-316): `i` enumerates script lines, `offset` decreases by one per `'+'`
line, and each `'-'` line contributes `i + offset`. -/
def removedAux : Nat → Int → List EditItem → List Int
  | _, _, [] => []
  | i, offset, .keep _ :: rest => removedAux (i + 1) offset rest
  | i, offset, .ins _ :: rest => removedAux (i + 1) (offset - 1) rest
  | i, offset, .del _ :: rest => ((i : Int) + offset) :: removedAux (i + 1) offset rest

/-- The grouping loop of `get_diff_removals` (src/main.py lines 318-330),
carrying the previous index and the group under construction. -/
def groupRunsGo (prev : Int) (group : List Int) : List Int → List (List Int)
  | [] => [group]
  | x :: xs =>
    if x - prev = 1 then groupRunsGo x (group ++ [x]) xs
    else group :: groupRunsGo x [x] xs

/-- Grouping of the removed indices into runs of consecutive indices
(src/main.py lines 318-332); an empty index list yields no groups. -/
def groupRuns : List Int → List (List Int)
  | [] => []
  | x :: xs => groupRunsGo x [x] xs

/-- Function `get_diff_removals` (src/main.py lines 304-332). -/
def get_diff_removals (first second : List Char) : List (List Int) :=
  groupRuns (removedAux 0 0 (ndiffModel first second))

/-- Markup opening delimiter, spliced before each marked run. -/
def markOpen : List Char := "<b><u>".toList

/-- Markup closing delimiter, spliced after each marked run. -/
def markClose : List Char := "</u></b>".toList

/-- The splicing loop of `get_diff` (src/main.py lines 287-299): wrap the
slice `[group[0] + offset, group[-1] + 1 + offset)` in the markup delimiters,
then advance `offset` by `len('<u></u><b></b>') = 14`. -/
def spliceGo : List Char → Int → List (List Int) → List Char
  | s, _, [] => s
  | s, offset, g :: gs =>
    let start := (g.headI + offset).toNat
    let stop := (g.getLastI + 1 + offset).toNat
    spliceGo
      (s.take start ++ markOpen ++ ((s.drop start).take (stop - start)) ++ markClose ++ s.drop stop)
      (offset + 14) gs

/-- Function `get_diff` (src/main.py lines 283-301): mark, in each string, the runs of
characters absent from the other. -/
def get_diff (old new : List Char) : List Char × List Char :=
  let removed_from_old := get_diff_removals old new
  let removed_from_new := get_diff_removals new old
  (spliceGo old 0 removed_from_old, spliceGo new 0 removed_from_new)

/-- Specification view of the removed-index computation: the value pushed for
each `'-'` line equals the position of that deleted character within the first
string (the count of preceding `' '`/`'-'` lines), starting from `base`. -/
def delIdx (base : Int) : List EditItem → List Int
  | [] => []
  | .keep _ :: rest => delIdx (base + 1) rest
  | .ins _ :: rest => delIdx base rest
  | .del _ :: rest => base :: delIdx (base + 1) rest

/-- Bounds obeyed by the splicing loop of `get_diff`: at each step (string
length `len`, accumulated markup offset `offset`) the slice start is
non-negative, at most the slice end, and the slice end is within the current
string; each step then grows the string by the 14 delimiter characters. -/
def spliceStepsOk : Nat → Int → List (List Int) → Prop
  | _, _, [] => True
  | len, offset, g :: gs =>
    0 ≤ g.headI + offset ∧ g.headI + offset ≤ g.getLastI + 1 + offset ∧
    (g.getLastI + 1 + offset).toNat ≤ len ∧ spliceStepsOk (len + 14) (offset + 14) gs

/-! ## Shared helper lemmas -/

theorem findIdxQ_some_bound {α : Type _} (p : α → Bool) :
    ∀ (l : List α) (i j : Nat), List.findIdx? p l i = some j → i ≤ j ∧ j < i + l.length := by
  intro l
  induction l with
  | nil => intro i j h; simp [List.findIdx?_nil] at h
  | cons x xs ih =>
    intro i j h
    rw [List.findIdx?_cons] at h
    by_cases hp : p x = true
    · rw [if_pos hp] at h
      obtain rfl : i = j := Option.some.inj h
      simp
    · rw [if_neg hp] at h
      have := ih (i + 1) j h
      simp only [List.length_cons]
      omega

theorem get_or_none_lt {store : List Article} {link : Url} {idx : Nat}
    (h : get_or_none store link = some idx) : idx < store.length := by
  unfold get_or_none at h
  have := findIdxQ_some_bound (fun a => a.link == link) store 0 idx h
  omega

theorem getD_set_self {α : Type _} (l : List α) (i : Nat) (a d : α) (h : i < l.length) :
    (l.set i a).getD i d = a := by
  simp [List.getD_eq_getElem?_getD, List.getElem?_set_self h]

theorem containsSub_www_prepend (n : List Char) :
    containsSub "www".toList ('w' :: 'w' :: 'w' :: '.' :: n) = true := rfl

theorem canonicalizeUrl_of_contains (u : Url)
    (h : containsSub "www".toList u.netloc = true) : canonicalizeUrl u = u := by
  unfold canonicalizeUrl
  rw [if_pos h]

theorem canonicalizeUrl_of_not_contains (u : Url)
    (h : containsSub "www".toList u.netloc = false) :
    canonicalizeUrl u = { u with netloc := 'w' :: 'w' :: 'w' :: '.' :: u.netloc } := by
  unfold canonicalizeUrl
  rw [h]
  simp

/-! ## C7 -/

/-- C7 (counterexample): two links that differ only by a `www.` prefix on the
host do not always canonicalize to the same value — the code tests substring
containment, so a host already containing `www` (here `ewww.dday.it`) is left
bare while its `www.`-prefixed variant stays prefixed. -/
theorem c7_www_prefix_pair_cx :
    canonicalizeUrl { scheme := "https", netloc := "ewww.dday.it".toList, path := "/a" }
      ≠ canonicalizeUrl { scheme := "https", netloc := "www.ewww.dday.it".toList, path := "/a" } := by
  decide

/-- C7 (amended): canonicalization is idempotent for every link, and a pair of
links differing only by a `www.` host prefix canonicalize to the same value
provided `www` does not already occur as a substring of the bare host. -/
theorem c7_canonicalize_idem_and_www (u : Url) :
    canonicalizeUrl (canonicalizeUrl u) = canonicalizeUrl u ∧
    (containsSub "www".toList u.netloc = false →
      canonicalizeUrl u
        = canonicalizeUrl { u with netloc := 'w' :: 'w' :: 'w' :: '.' :: u.netloc }) := by
  constructor
  · cases h : containsSub "www".toList u.netloc with
    | true => rw [canonicalizeUrl_of_contains u h, canonicalizeUrl_of_contains u h]
    | false =>
      rw [canonicalizeUrl_of_not_contains u h,
        canonicalizeUrl_of_contains _ (containsSub_www_prepend u.netloc)]
  · intro h
    rw [canonicalizeUrl_of_not_contains u h,
      canonicalizeUrl_of_contains _ (containsSub_www_prepend u.netloc)]

/-! ## C2 -/

/-- C2: when no Article matches the entry's canonical link and the
`Publisher.create` call fails (the transport raises, or a non-200 response
makes `raise_for_status` raise), nothing is persisted — the store is returned
unchanged, so the next cycle sees "no match" again and retries CREATE. -/
theorem c2_create_failure_unchanged (entry : Entry) (store : List Article)
    (tags : List String) (http : HttpOutcome)
    (hmiss : get_or_none store (parse_url entry) = none)
    (hfail : http = HttpOutcome.raises ∨
      ∃ c mid, http = HttpOutcome.status c mid ∧ c ≠ 200) :
    (process_new_article entry store (Except.ok tags) http).result = Except.ok store := by
  rcases hfail with rfl | ⟨c, mid, rfl, hc⟩
  · simp [process_new_article, hmiss, send_message, truthyOptInt]
  · simp [process_new_article, hmiss, send_message, truthyOptInt, hc]

/-- C2 witness: a failing create at a concrete entry over a concrete store. -/
theorem c2_create_failure_unchanged_witness :
    (process_new_article
      { title := "Alpha", summary := "", links := [{ scheme := "https", netloc := "www.x.test".toList, path := "/a" }],
        published_parsed := 10, updated_parsed := 10, updated := "2024" }
      [{ title := "Other", description := "", link := { scheme := "https", netloc := "www.x.test".toList, path := "/b" },
         image := { scheme := "https", netloc := "www.x.test".toList, path := "/i" },
         published := 1, updated := 1, telegram_message_id := some 7 }]
      (Except.ok []) HttpOutcome.raises).result
      = Except.ok
        [{ title := "Other", description := "", link := { scheme := "https", netloc := "www.x.test".toList, path := "/b" },
           image := { scheme := "https", netloc := "www.x.test".toList, path := "/i" },
           published := 1, updated := 1, telegram_message_id := some 7 }] :=
  c2_create_failure_unchanged _ _ _ _ (by decide) (Or.inl rfl)

/-! ## C3 -/

/-- C3: when no Article matches the entry's canonical link, exactly one CREATE
call is issued whatever the transport outcome, and on a 200 response the
persisted Article is `created_article`, whose `telegram_message_id` is the
identifier returned by the create call and whose `link` is the entry's
canonicalized link. -/
theorem c3_create_success (entry : Entry) (store : List Article) (tags : List String)
    (http : HttpOutcome) (mid : Int)
    (hmiss : get_or_none store (parse_url entry) = none) :
    (process_new_article entry store (Except.ok tags) http).calls = [PubCall.sendPhoto] ∧
    (http = HttpOutcome.status 200 mid →
      (process_new_article entry store (Except.ok tags) http).result
        = Except.ok (store ++ [created_article entry (build_message entry tags) mid]) ∧
      (created_article entry (build_message entry tags) mid).telegram_message_id = some mid ∧
      (created_article entry (build_message entry tags) mid).link = parse_url entry) := by
  constructor
  · cases http with
    | raises => simp [process_new_article, hmiss, send_message, truthyOptInt]
    | status c m =>
      by_cases hc : c = 200
      · subst hc
        simp [process_new_article, hmiss, send_message, truthyOptInt]
      · simp [process_new_article, hmiss, send_message, truthyOptInt, hc]
  · rintro rfl
    refine ⟨?_, rfl, rfl⟩
    simp [process_new_article, hmiss, send_message, truthyOptInt, created_article]

/-- C3 witness: the spec's publish scenario — entry `Alpha` at canonical link
`https://www.x.test/a`, empty store, create returns 42. -/
theorem c3_create_success_witness :
    (process_new_article
      { title := "Alpha", summary := "", links := [{ scheme := "https", netloc := "www.x.test".toList, path := "/a" }],
        published_parsed := 10, updated_parsed := 10, updated := "2024" }
      [] (Except.ok []) (HttpOutcome.status 200 42)).calls = [PubCall.sendPhoto] ∧
    (process_new_article
      { title := "Alpha", summary := "", links := [{ scheme := "https", netloc := "www.x.test".toList, path := "/a" }],
        published_parsed := 10, updated_parsed := 10, updated := "2024" }
      [] (Except.ok []) (HttpOutcome.status 200 42)).result
      = Except.ok [created_article
          { title := "Alpha", summary := "", links := [{ scheme := "https", netloc := "www.x.test".toList, path := "/a" }],
            published_parsed := 10, updated_parsed := 10, updated := "2024" }
          (build_message
            { title := "Alpha", summary := "", links := [{ scheme := "https", netloc := "www.x.test".toList, path := "/a" }],
              published_parsed := 10, updated_parsed := 10, updated := "2024" } [])
          42] := by
  have h := c3_create_success
    { title := "Alpha", summary := "", links := [{ scheme := "https", netloc := "www.x.test".toList, path := "/a" }],
      published_parsed := 10, updated_parsed := 10, updated := "2024" }
    [] [] (HttpOutcome.status 200 42) 42 (by decide)
  exact ⟨h.1, (h.2 rfl).1⟩

/-! ## C4 -/

/-- C4: for a stored Article with truthy `remoteMessageId`, if the edit call
raises a transport error (`RequestException`), the entry's processing returns
the store unchanged — title and updated are untouched, so the update is
retried next cycle. -/
theorem c4_edit_raises_unchanged (entry : Entry) (store : List Article)
    (tags : List String) (idx : Nat) (t : Int)
    (hfind : get_or_none store (parse_url entry) = some idx)
    (hid : (store.getD idx default).telegram_message_id = some t) (ht : t ≠ 0) :
    (process_new_article entry store (Except.ok tags) HttpOutcome.raises).result
      = Except.ok store := by
  simp only [List.getD_eq_getElem?_getD] at hid
  simp [process_new_article, hfind, hid, send_message, truthyOptInt, ht]

/-- C4 witness: a raising edit over a one-row store. -/
theorem c4_edit_raises_unchanged_witness :
    (process_new_article
      { title := "Alpha Two", summary := "", links := [{ scheme := "https", netloc := "www.x.test".toList, path := "/a" }],
        published_parsed := 10, updated_parsed := 20, updated := "2024" }
      [{ title := "Alpha", description := "", link := { scheme := "https", netloc := "www.x.test".toList, path := "/a" },
         image := { scheme := "https", netloc := "www.x.test".toList, path := "/i" },
         published := 10, updated := 10, telegram_message_id := some 42 }]
      (Except.ok []) HttpOutcome.raises).result
      = Except.ok
        [{ title := "Alpha", description := "", link := { scheme := "https", netloc := "www.x.test".toList, path := "/a" },
           image := { scheme := "https", netloc := "www.x.test".toList, path := "/i" },
           published := 10, updated := 10, telegram_message_id := some 42 }] :=
  c4_edit_raises_unchanged _ _ [] 0 42 (by decide) (by decide) (by decide)

/-! ## C5 -/

/-- C5: a non-fatal Publisher rejection on edit (non-200 response rather than
a raised transport error) is treated as success for bookkeeping: nothing
raises, and the matched Article is still rewritten with the entry's title,
canonical link, and `updated` advanced to the entry's timestamp. -/
theorem c5_edit_soft_rejection (entry : Entry) (store : List Article)
    (tags : List String) (idx : Nat) (t : Int) (c : Nat) (mid : Int)
    (hfind : get_or_none store (parse_url entry) = some idx)
    (hid : (store.getD idx default).telegram_message_id = some t) (ht : t ≠ 0)
    (hupd : entry.updated ≠ "") (hc : c ≠ 200) :
    process_new_article entry store (Except.ok tags) (HttpOutcome.status c mid)
      = { calls := [PubCall.editMessageCaption t],
          result := Except.ok (store.set idx
            { store.getD idx default with
              title := entry.title
              link := parse_url entry
              updated := entry.updated_parsed }) } := by
  have hid' := hid
  simp only [List.getD_eq_getElem?_getD] at hid'
  simp [process_new_article, hfind, hid, hid', send_message, truthyOptInt, truthyOptStr,
    ht, hupd, hc]

/-- C5 witness: a 404-style rejection of the edit still advances `updated` to
the entry's timestamp. -/
theorem c5_edit_soft_rejection_witness :
    process_new_article
      { title := "Alpha Two", summary := "", links := [{ scheme := "https", netloc := "www.x.test".toList, path := "/a" }],
        published_parsed := 10, updated_parsed := 20, updated := "2024" }
      [{ title := "Alpha", description := "", link := { scheme := "https", netloc := "www.x.test".toList, path := "/a" },
         image := { scheme := "https", netloc := "www.x.test".toList, path := "/i" },
         published := 10, updated := 10, telegram_message_id := some 42 }]
      (Except.ok []) (HttpOutcome.status 404 0)
      = { calls := [PubCall.editMessageCaption 42],
          result := Except.ok
            [{ title := "Alpha Two", description := "", link := { scheme := "https", netloc := "www.x.test".toList, path := "/a" },
               image := { scheme := "https", netloc := "www.x.test".toList, path := "/i" },
               published := 10, updated := 20, telegram_message_id := some 42 }] } :=
  c5_edit_soft_rejection _ _ [] 0 42 404 0 (by decide) (by decide) (by decide)
    (by decide) (by decide)

/-! ## C1 -/

/-- C1 (counterexample): a poll cycle over a non-empty store does NOT take the
UPDATE action for a matched entry.  The store holds an Article for
`https://www.dday.it/a` with `telegram_message_id = 42`; the feed presents the
same canonical link with a new title and a newer updated timestamp, and the
transport oracle would even answer 200 — yet the cycle issues no Publisher
call at all and leaves the store byte-for-byte unchanged (src/main.py line 85
only processes entries with no matching Article; the updated-time comparison
is commented out). -/
theorem c1_check_skips_matched_entry_cx :
    check
      [{ title := "New title", summary := "s",
         links := [{ scheme := "https", netloc := "www.dday.it".toList, path := "/a" },
                   { scheme := "https", netloc := "www.dday.it".toList, path := "/i" }],
         published_parsed := 10, updated_parsed := 20, updated := "2024" }]
      [{ fetchResult := Except.ok [], httpResult := HttpOutcome.status 200 99 }]
      [{ title := "Old title", description := "d",
         link := { scheme := "https", netloc := "www.dday.it".toList, path := "/a" },
         image := { scheme := "https", netloc := "www.dday.it".toList, path := "/i" },
         published := 10, updated := 5, telegram_message_id := some 42 }]
      = { calls := [],
          result := Except.ok
            [{ title := "Old title", description := "d",
               link := { scheme := "https", netloc := "www.dday.it".toList, path := "/a" },
               image := { scheme := "https", netloc := "www.dday.it".toList, path := "/i" },
               published := 10, updated := 5, telegram_message_id := some 42 }] } := by
  decide

/-- C1 (amended): the poll cycle skips every entry whose canonical link
matches a stored Article, so Publisher.edit is never reached from `check`; the
claimed UPDATE behaviour holds only of `process_new_article` itself: invoked
on an entry matching a stored Article with truthy `remoteMessageId`, it calls
Publisher.edit with that id and, on a 200 response, rewrites the Article's
title, link and updated fields. -/
theorem c1_update_path_amended (entry : Entry) (store : List Article)
    (tags : List String) (idx : Nat) (t : Int) (mid : Int)
    (hfind : get_or_none store (parse_url entry) = some idx)
    (hid : (store.getD idx default).telegram_message_id = some t) (ht : t ≠ 0)
    (hupd : entry.updated ≠ "") :
    process_new_article entry store (Except.ok tags) (HttpOutcome.status 200 mid)
      = { calls := [PubCall.editMessageCaption t],
          result := Except.ok (store.set idx
            { store.getD idx default with
              title := entry.title
              link := parse_url entry
              updated := entry.updated_parsed }) } := by
  have hid' := hid
  simp only [List.getD_eq_getElem?_getD] at hid'
  simp [process_new_article, hfind, hid, hid', send_message, truthyOptInt, truthyOptStr,
    ht, hupd]

/-- C1 witness: the amended update path at a concrete entry and store. -/
theorem c1_update_path_amended_witness :
    process_new_article
      { title := "Alpha Two", summary := "", links := [{ scheme := "https", netloc := "www.x.test".toList, path := "/a" }],
        published_parsed := 10, updated_parsed := 20, updated := "2024" }
      [{ title := "Alpha", description := "", link := { scheme := "https", netloc := "www.x.test".toList, path := "/a" },
         image := { scheme := "https", netloc := "www.x.test".toList, path := "/i" },
         published := 10, updated := 10, telegram_message_id := some 42 }]
      (Except.ok []) (HttpOutcome.status 200 99)
      = { calls := [PubCall.editMessageCaption 42],
          result := Except.ok
            [{ title := "Alpha Two", description := "", link := { scheme := "https", netloc := "www.x.test".toList, path := "/a" },
               image := { scheme := "https", netloc := "www.x.test".toList, path := "/i" },
               published := 10, updated := 20, telegram_message_id := some 42 }] } :=
  c1_update_path_amended _ _ [] 0 42 99 (by decide) (by decide) (by decide) (by decide)

/-! ## C6 -/

/-- C6: a cycle over an empty store runs first-run backfill — no Publisher
call is made, one Article per feed entry is inserted in reversed feed order
(oldest first), every inserted Article has `telegram_message_id = None`, and
when the feed lists entries newest-first the resulting store is ordered by
ascending `published`. -/
theorem c6_empty_store_backfill (feed : List Entry) (oracles : List EntryOracle) :
    check feed oracles [] = { calls := [], result := Except.ok (first_run feed) } ∧
    first_run feed = feed.reverse.map first_run_article ∧
    (first_run feed).length = feed.length ∧
    (∀ a ∈ first_run feed, a.telegram_message_id = none) ∧
    (List.Pairwise (fun e f => f.published_parsed ≤ e.published_parsed) feed →
      List.Pairwise (fun a b => a.published ≤ b.published) (first_run feed)) := by
  refine ⟨rfl, rfl, by simp [first_run], ?_, ?_⟩
  · intro a ha
    simp only [first_run, List.mem_map, List.mem_reverse] at ha
    obtain ⟨e, _, rfl⟩ := ha
    rfl
  · intro hsorted
    simp only [first_run]
    rw [List.pairwise_map, List.pairwise_reverse]
    simpa [first_run_article] using hsorted

/-- C6 witness: the spec's backfill scenario — three entries, newest first in
the feed, yield three seeded Articles, oldest first, none published. -/
theorem c6_empty_store_backfill_witness :
    check
      [{ title := "E3", summary := "", links := [{ scheme := "https", netloc := "www.x.test".toList, path := "/3" }],
         published_parsed := 30, updated_parsed := 30, updated := "t3" },
       { title := "E2", summary := "", links := [{ scheme := "https", netloc := "www.x.test".toList, path := "/2" }],
         published_parsed := 20, updated_parsed := 20, updated := "t2" },
       { title := "E1", summary := "", links := [{ scheme := "https", netloc := "www.x.test".toList, path := "/1" }],
         published_parsed := 10, updated_parsed := 10, updated := "t1" }]
      [] []
      = { calls := [],
          result := Except.ok (first_run
            [{ title := "E3", summary := "", links := [{ scheme := "https", netloc := "www.x.test".toList, path := "/3" }],
               published_parsed := 30, updated_parsed := 30, updated := "t3" },
             { title := "E2", summary := "", links := [{ scheme := "https", netloc := "www.x.test".toList, path := "/2" }],
               published_parsed := 20, updated_parsed := 20, updated := "t2" },
             { title := "E1", summary := "", links := [{ scheme := "https", netloc := "www.x.test".toList, path := "/1" }],
               published_parsed := 10, updated_parsed := 10, updated := "t1" }]) } ∧
    (first_run
      [{ title := "E3", summary := "", links := [{ scheme := "https", netloc := "www.x.test".toList, path := "/3" }],
         published_parsed := 30, updated_parsed := 30, updated := "t3" },
       { title := "E2", summary := "", links := [{ scheme := "https", netloc := "www.x.test".toList, path := "/2" }],
         published_parsed := 20, updated_parsed := 20, updated := "t2" },
       { title := "E1", summary := "", links := [{ scheme := "https", netloc := "www.x.test".toList, path := "/1" }],
         published_parsed := 10, updated_parsed := 10, updated := "t1" }]).length = 3 ∧
    (∀ a ∈ first_run
      [{ title := "E3", summary := "", links := [{ scheme := "https", netloc := "www.x.test".toList, path := "/3" }],
         published_parsed := 30, updated_parsed := 30, updated := "t3" },
       { title := "E2", summary := "", links := [{ scheme := "https", netloc := "www.x.test".toList, path := "/2" }],
         published_parsed := 20, updated_parsed := 20, updated := "t2" },
       { title := "E1", summary := "", links := [{ scheme := "https", netloc := "www.x.test".toList, path := "/1" }],
         published_parsed := 10, updated_parsed := 10, updated := "t1" }], a.telegram_message_id = none) ∧
    List.Pairwise (fun a b => a.published ≤ b.published) (first_run
      [{ title := "E3", summary := "", links := [{ scheme := "https", netloc := "www.x.test".toList, path := "/3" }],
         published_parsed := 30, updated_parsed := 30, updated := "t3" },
       { title := "E2", summary := "", links := [{ scheme := "https", netloc := "www.x.test".toList, path := "/2" }],
         published_parsed := 20, updated_parsed := 20, updated := "t2" },
       { title := "E1", summary := "", links := [{ scheme := "https", netloc := "www.x.test".toList, path := "/1" }],
         published_parsed := 10, updated_parsed := 10, updated := "t1" }]) := by
  have h := c6_empty_store_backfill
    [{ title := "E3", summary := "", links := [{ scheme := "https", netloc := "www.x.test".toList, path := "/3" }],
       published_parsed := 30, updated_parsed := 30, updated := "t3" },
     { title := "E2", summary := "", links := [{ scheme := "https", netloc := "www.x.test".toList, path := "/2" }],
       published_parsed := 20, updated_parsed := 20, updated := "t2" },
     { title := "E1", summary := "", links := [{ scheme := "https", netloc := "www.x.test".toList, path := "/1" }],
       published_parsed := 10, updated_parsed := 10, updated := "t1" }] []
  exact ⟨h.1, by decide, h.2.2.2.1, h.2.2.2.2 (by decide)⟩

/-! ## C8 -/

/-- C8 (counterexample): a reconciliation write can decrease `updated`.  The
stored Article (seeded, `telegram_message_id = None`, `updated = 100`) is
matched by an entry whose updated timestamp is 50; the REPAIR branch
(src/main.py lines 124-129) overwrites `updated` with 50 < 100. -/
theorem c8_repair_decreases_updated_cx :
    (process_new_article
      { title := "T", summary := "", links := [{ scheme := "https", netloc := "www.dday.it".toList, path := "/a" }],
        published_parsed := 1, updated_parsed := 50, updated := "2024" }
      [{ title := "T", description := "", link := { scheme := "https", netloc := "www.dday.it".toList, path := "/a" },
         image := { scheme := "https", netloc := "www.dday.it".toList, path := "/i" },
         published := 1, updated := 100, telegram_message_id := none }]
      (Except.ok []) HttpOutcome.raises).result
      = Except.ok
        [{ title := "T", description := "", link := { scheme := "https", netloc := "www.dday.it".toList, path := "/a" },
           image := { scheme := "https", netloc := "www.dday.it".toList, path := "/i" },
           published := 1, updated := 50, telegram_message_id := none }] ∧
    ({ title := "T", description := "", link := { scheme := "https", netloc := "www.dday.it".toList, path := "/a" },
       image := { scheme := "https", netloc := "www.dday.it".toList, path := "/i" },
       published := 1, updated := 50, telegram_message_id := none } : Article).updated
      < ({ title := "T", description := "", link := { scheme := "https", netloc := "www.dday.it".toList, path := "/a" },
           image := { scheme := "https", netloc := "www.dday.it".toList, path := "/i" },
           published := 1, updated := 100, telegram_message_id := none } : Article).updated := by
  decide

/-- C8 (amended): the reconciliation write sets `updated` to the entry's
timestamp unconditionally, so `updated` is non-decreasing across an entry's
processing exactly when the entry's updated timestamp is at least the stored
value (which the feed's monotone timestamps provide). -/
theorem c8_updated_monotone (entry : Entry) (store : List Article)
    (fetch : Except Unit (List String)) (http : HttpOutcome) (idx : Nat)
    (store' : List Article)
    (hfind : get_or_none store (parse_url entry) = some idx)
    (hmono : (store.getD idx default).updated ≤ entry.updated_parsed)
    (hok : (process_new_article entry store fetch http).result = Except.ok store') :
    (store.getD idx default).updated ≤ (store'.getD idx default).updated := by
  have hlt : idx < store.length := get_or_none_lt hfind
  cases fetch with
  | error e => simp [process_new_article] at hok
  | ok tags =>
    cases htr : truthyOptInt (store.getD idx default).telegram_message_id with
    | false =>
      have htr' := htr
      simp only [List.getD_eq_getElem?_getD] at htr'
      simp [process_new_article, hfind, htr'] at hok
      subst hok
      rw [getD_set_self _ _ _ _ hlt]
      exact hmono
    | true =>
      have htr' := htr
      simp only [List.getD_eq_getElem?_getD] at htr'
      cases http with
      | raises =>
        simp [process_new_article, hfind, htr', send_message] at hok
        subst hok
        exact le_refl _
      | status c m =>
        by_cases hc : c = 200
        · subst hc
          simp [process_new_article, hfind, htr', send_message] at hok
          subst hok
          rw [getD_set_self _ _ _ _ hlt]
          exact hmono
        · simp [process_new_article, hfind, htr', send_message, hc] at hok
          subst hok
          rw [getD_set_self _ _ _ _ hlt]
          exact hmono

/-- C8 witness: the amended monotonicity at a concrete REPAIR write with a
non-decreasing entry timestamp. -/
theorem c8_updated_monotone_witness :
    (([{ title := "T", description := "", link := { scheme := "https", netloc := "www.dday.it".toList, path := "/a" },
         image := { scheme := "https", netloc := "www.dday.it".toList, path := "/i" },
         published := 1, updated := 100, telegram_message_id := none }] : List Article).getD 0 default).updated
      ≤ (([{ title := "T", description := "", link := { scheme := "https", netloc := "www.dday.it".toList, path := "/a" },
             image := { scheme := "https", netloc := "www.dday.it".toList, path := "/i" },
             published := 1, updated := 150, telegram_message_id := none }] : List Article).getD 0 default).updated :=
  c8_updated_monotone
    { title := "T", summary := "", links := [{ scheme := "https", netloc := "www.dday.it".toList, path := "/a" }],
      published_parsed := 1, updated_parsed := 150, updated := "2024" }
    [{ title := "T", description := "", link := { scheme := "https", netloc := "www.dday.it".toList, path := "/a" },
       image := { scheme := "https", netloc := "www.dday.it".toList, path := "/i" },
       published := 1, updated := 100, telegram_message_id := none }]
    (Except.ok []) HttpOutcome.raises 0
    [{ title := "T", description := "", link := { scheme := "https", netloc := "www.dday.it".toList, path := "/a" },
       image := { scheme := "https", netloc := "www.dday.it".toList, path := "/i" },
       published := 1, updated := 150, telegram_message_id := none }]
    (by decide) (by decide) (by decide)

/-- C7 witness: the amended statement at the host `dday.it`. -/
theorem c7_canonicalize_idem_and_www_witness :
    (canonicalizeUrl (canonicalizeUrl { scheme := "https", netloc := "dday.it".toList, path := "/a" })
      = canonicalizeUrl { scheme := "https", netloc := "dday.it".toList, path := "/a" }) ∧
    (canonicalizeUrl { scheme := "https", netloc := "dday.it".toList, path := "/a" }
      = canonicalizeUrl { scheme := "https", netloc := 'w' :: 'w' :: 'w' :: '.' :: "dday.it".toList, path := "/a" }) :=
  ⟨(c7_canonicalize_idem_and_www _).1,
    (c7_canonicalize_idem_and_www { scheme := "https", netloc := "dday.it".toList, path := "/a" }).2
      (by decide)⟩

/-! ## C9 -/

theorem ndiffModel_self : ∀ s : List Char, ndiffModel s s = s.map EditItem.keep := by
  intro s
  induction s with
  | nil => simp [ndiffModel]
  | cons a t ih => simp [ndiffModel, ih]

theorem removedAux_map_keep :
    ∀ (s : List Char) (i : Nat) (off : Int), removedAux i off (s.map EditItem.keep) = [] := by
  intro s
  induction s with
  | nil => intro i off; simp [removedAux]
  | cons a t ih => intro i off; simp [removedAux, ih]

/-- C9: on two identical strings the diff highlighter inserts no markup in
either output — `get_diff s s = (s, s)` — and both removal-group lists are
empty. -/
theorem c9_diff_identity (s : List Char) :
    get_diff s s = (s, s) ∧ get_diff_removals s s = [] := by
  have h : get_diff_removals s s = [] := by
    simp [get_diff_removals, ndiffModel_self, removedAux_map_keep, groupRuns]
  exact ⟨by simp [get_diff, h, spliceGo], h⟩

/-! ## C10 -/

theorem removedAux_eq_delIdx :
    ∀ (script : List EditItem) (i : Nat) (off : Int),
      removedAux i off script = delIdx ((i : Int) + off) script := by
  intro script
  induction script with
  | nil => intro i off; simp [removedAux, delIdx]
  | cons it rest ih =>
    intro i off
    cases it with
    | keep c =>
      simp only [removedAux, delIdx]
      rw [ih]
      congr 1
      push_cast
      ring
    | ins c =>
      simp only [removedAux, delIdx]
      rw [ih]
      congr 1
      push_cast
      ring
    | del c =>
      simp only [removedAux, delIdx]
      rw [ih]
      congr 2
      push_cast
      ring

theorem delIdx_lower :
    ∀ (script : List EditItem) (base : Int), ∀ e ∈ delIdx base script, base ≤ e := by
  intro script
  induction script with
  | nil => intro base e he; simp [delIdx] at he
  | cons it rest ih =>
    intro base e he
    cases it with
    | keep c =>
      simp only [delIdx] at he
      have := ih (base + 1) e he
      omega
    | ins c =>
      simp only [delIdx] at he
      exact ih base e he
    | del c =>
      simp only [delIdx, List.mem_cons] at he
      rcases he with rfl | he
      · exact le_refl _
      · have := ih (base + 1) e he
        omega

theorem delIdx_upper :
    ∀ (script : List EditItem) (base : Int),
      ∀ e ∈ delIdx base script, e < base + (fromFirst script).length := by
  intro script
  induction script with
  | nil => intro base e he; simp [delIdx] at he
  | cons it rest ih =>
    intro base e he
    cases it with
    | keep c =>
      simp only [delIdx] at he
      have := ih (base + 1) e he
      simp only [fromFirst] at this
      simp only [fromFirst, List.filterMap_cons, List.length_cons]
      push_cast
      push_cast at this
      omega
    | ins c =>
      simp only [delIdx] at he
      have := ih base e he
      simp only [fromFirst, List.filterMap_cons]
      exact this
    | del c =>
      simp only [delIdx, List.mem_cons] at he
      simp only [fromFirst, List.filterMap_cons, List.length_cons]
      rcases he with rfl | he
      · push_cast
        have : (0 : Int) ≤ ((rest.filterMap fun it => match it with
            | EditItem.keep c => some c
            | EditItem.del c => some c
            | EditItem.ins _ => none).length : Int) := by positivity
        omega
      · have := ih (base + 1) e he
        simp only [fromFirst] at this
        push_cast
        push_cast at this
        omega

theorem delIdx_chain :
    ∀ (script : List EditItem) (base : Int), List.Chain' (· < ·) (delIdx base script) := by
  intro script
  induction script with
  | nil => intro base; simp [delIdx]
  | cons it rest ih =>
    intro base
    cases it with
    | keep c => simpa [delIdx] using ih (base + 1)
    | ins c => simpa [delIdx] using ih base
    | del c =>
      simp only [delIdx]
      rw [List.chain'_cons']
      refine ⟨?_, ih (base + 1)⟩
      intro y hy
      have hmem := List.mem_of_mem_head? hy
      have := delIdx_lower rest (base + 1) y hmem
      omega

theorem fromFirst_ndiffModel : ∀ (a b : List Char), fromFirst (ndiffModel a b) = a := by
  intro a b
  induction a, b using ndiffModel.induct with
  | case1 bs =>
    simp [ndiffModel, fromFirst, List.filterMap_map]
  | case2 x as ih =>
    simp only [ndiffModel]
    simp only [fromFirst, List.filterMap_cons] at ih ⊢
    simpa using ih
  | case3 as y bs ih =>
    simp only [ndiffModel, if_pos rfl]
    simp only [fromFirst, List.filterMap_cons] at ih ⊢
    simpa using ih
  | case4 x as y bs hne hge ih =>
    simp only [ndiffModel, if_neg hne, if_pos hge]
    simp only [fromFirst, List.filterMap_cons] at ih ⊢
    simpa using ih
  | case5 x as y bs hne hlt ih =>
    simp only [ndiffModel, if_neg hne, if_neg hlt]
    simp only [fromFirst, List.filterMap_cons] at ih ⊢
    simpa using ih

theorem getLastQ_of_ne_nil {l : List Int} (h : l ≠ []) : l.getLast? = some l.getLastI := by
  rw [List.getLastI_eq_getLast?]
  cases hl : l.getLast? with
  | none => exact absurd (List.getLast?_eq_none_iff.mp hl) h
  | some a => rfl

theorem getLastI_concat (l : List Int) (x : Int) : (l ++ [x]).getLastI = x := by
  rw [List.getLastI_eq_getLast?, List.getLast?_concat]

theorem headI_mem {l : List Int} (h : l ≠ []) : l.headI ∈ l := by
  cases l with
  | nil => exact absurd rfl h
  | cons a t => simp

theorem getLastI_mem {l : List Int} (h : l ≠ []) : l.getLastI ∈ l :=
  List.mem_of_mem_getLast? (getLastQ_of_ne_nil h ▸ rfl)

theorem chainSucc_headI_le_getLastI :
    ∀ (g : List Int), g ≠ [] → List.Chain' (fun x y => y = x + 1) g →
      g.headI ≤ g.getLastI := by
  intro g
  induction g with
  | nil => intro h; exact absurd rfl h
  | cons a t ih =>
    intro _ hc
    cases t with
    | nil => simp [List.getLastI]
    | cons b t' =>
      have hab : b = a + 1 := (List.chain'_cons.mp hc).1
      have h2 := ih (by simp) (List.chain'_cons.mp hc).2
      have hlast : (a :: b :: t').getLastI = (b :: t').getLastI := by
        rw [List.getLastI_eq_getLast?, List.getLastI_eq_getLast?, List.getLast?_cons_cons]
      rw [hlast]
      simp only [List.headI_cons] at h2 ⊢
      omega

theorem groupRunsGo_head :
    ∀ (xs : List Int) (prev : Int) (group : List Int),
      ∃ t gs, groupRunsGo prev group xs = (group ++ t) :: gs := by
  intro xs
  induction xs with
  | nil => intro prev group; exact ⟨[], [], by simp [groupRunsGo]⟩
  | cons x xs ih =>
    intro prev group
    by_cases h : x - prev = 1
    · obtain ⟨t, gs, hgo⟩ := ih x (group ++ [x])
      refine ⟨[x] ++ t, gs, ?_⟩
      simp only [groupRunsGo, if_pos h]
      rw [hgo]
      simp
    · exact ⟨[], groupRunsGo x [x] xs, by simp [groupRunsGo, h]⟩

theorem groupRunsGo_spec (hi : Int) :
    ∀ (xs : List Int) (prev : Int) (group : List Int),
      group ≠ [] →
      List.Chain' (fun x y => y = x + 1) group →
      group.getLastI = prev →
      (∀ e ∈ group, 0 ≤ e ∧ e < hi) →
      (∀ e ∈ xs, 0 ≤ e ∧ e < hi) →
      List.Chain' (· < ·) (prev :: xs) →
      (∀ g ∈ groupRunsGo prev group xs,
          g ≠ [] ∧ (∀ e ∈ g, 0 ≤ e ∧ e < hi) ∧
          List.Chain' (fun x y => y = x + 1) g) ∧
      List.Chain' (fun g h => g.getLastI + 1 < h.headI) (groupRunsGo prev group xs) := by
  intro xs
  induction xs with
  | nil =>
    intro prev group h1 h2 _ h4 _ _
    constructor
    · intro g hg
      simp only [groupRunsGo, List.mem_singleton] at hg
      subst hg
      exact ⟨h1, h4, h2⟩
    · simp [groupRunsGo]
  | cons x xs ih =>
    intro prev group h1 h2 h3 h4 h5 h6
    have hpx : prev < x := (List.chain'_cons.mp h6).1
    have hxs : List.Chain' (· < ·) (x :: xs) := (List.chain'_cons.mp h6).2
    by_cases hx : x - prev = 1
    · simp only [groupRunsGo, if_pos hx]
      apply ih x (group ++ [x]) (by simp)
      · rw [List.chain'_append]
        refine ⟨h2, List.chain'_singleton x, ?_⟩
        intro p hp q hq
        rw [getLastQ_of_ne_nil h1] at hp
        simp only [Option.mem_def, Option.some.injEq] at hp
        simp only [List.head?_cons, Option.mem_def, Option.some.injEq] at hq
        subst hp
        subst hq
        rw [h3]
        omega
      · exact getLastI_concat group x
      · intro e he
        rcases List.mem_append.mp he with he | he
        · exact h4 e he
        · simp only [List.mem_singleton] at he
          subst he
          exact h5 e (by simp)
      · intro e he
        exact h5 e (by simp [he])
      · exact hxs
    · simp only [groupRunsGo, if_neg hx]
      have hx1 : ∀ e ∈ [x], 0 ≤ e ∧ e < hi := by
        intro e he
        simp only [List.mem_singleton] at he
        subst he
        exact h5 _ (List.mem_cons_self _ _)
      obtain ⟨res1, res2⟩ := ih x [x] (by simp) (List.chain'_singleton x) rfl
        hx1 (fun e he => h5 e (List.mem_cons_of_mem x he)) hxs
      constructor
      · intro g hg
        rcases List.mem_cons.mp hg with rfl | hg
        · exact ⟨h1, h4, h2⟩
        · exact res1 g hg
      · obtain ⟨t, gs, hgo⟩ := groupRunsGo_head xs x [x]
        rw [hgo] at res2 ⊢
        rw [List.chain'_cons]
        refine ⟨?_, res2⟩
        simp only [List.singleton_append, List.headI_cons]
        rw [h3]
        omega

theorem groupRuns_spec (hi : Int) (l : List Int)
    (hb : ∀ e ∈ l, 0 ≤ e ∧ e < hi) (hc : List.Chain' (· < ·) l) :
    (∀ g ∈ groupRuns l,
        g ≠ [] ∧ (∀ e ∈ g, 0 ≤ e ∧ e < hi) ∧
        List.Chain' (fun x y => y = x + 1) g) ∧
    List.Chain' (fun g h => g.getLastI + 1 < h.headI) (groupRuns l) := by
  cases l with
  | nil => simp [groupRuns]
  | cons x xs =>
    simp only [groupRuns]
    have hx1 : ∀ e ∈ [x], 0 ≤ e ∧ e < hi := by
      intro e he
      simp only [List.mem_singleton] at he
      subst he
      exact hb _ (List.mem_cons_self _ _)
    exact groupRunsGo_spec hi xs x [x] (by simp) (List.chain'_singleton x) rfl
      hx1 (fun e he => hb e (List.mem_cons_of_mem x he)) hc

theorem spliceStepsOk_of :
    ∀ (gs : List (List Int)) (len : Nat) (offset : Int), 0 ≤ offset →
      (∀ g ∈ gs, g ≠ [] ∧ (∀ e ∈ g, 0 ≤ e ∧ e < (len : Int)) ∧
          List.Chain' (fun x y => y = x + 1) g) →
      spliceStepsOk (len + offset.toNat) offset gs := by
  intro gs
  induction gs with
  | nil => intro len off h0 hg; simp [spliceStepsOk]
  | cons g gs ih =>
    intro len off h0 hg
    obtain ⟨hne, hb, hcs⟩ := hg g (List.mem_cons_self g gs)
    have hhead := hb _ (headI_mem hne)
    have hlast := hb _ (getLastI_mem hne)
    have hh : g.headI ≤ g.getLastI := chainSucc_headI_le_getLastI g hne hcs
    simp only [spliceStepsOk]
    refine ⟨by omega, by omega, by omega, ?_⟩
    have hrec := ih len (off + 14) (by omega)
      (fun g' hg' => hg g' (List.mem_cons_of_mem g hg'))
    have heq : len + (off + 14).toNat = len + off.toNat + 14 := by omega
    rwa [heq] at hrec

theorem spliceGo_length :
    ∀ (gs : List (List Int)) (s : List Char) (offset : Int),
      spliceStepsOk s.length offset gs →
      (spliceGo s offset gs).length = s.length + 14 * gs.length := by
  intro gs
  induction gs with
  | nil => intro s off _; simp [spliceGo]
  | cons g gs ih =>
    intro s off h
    simp only [spliceStepsOk] at h
    obtain ⟨h1, h2, h3, h4⟩ := h
    simp only [spliceGo]
    have hss : (g.headI + off).toNat ≤ (g.getLastI + 1 + off).toNat := Int.toNat_le_toNat h2
    have hlen :
        (s.take (g.headI + off).toNat ++ markOpen ++
          ((s.drop (g.headI + off).toNat).take
            ((g.getLastI + 1 + off).toNat - (g.headI + off).toNat)) ++ markClose ++
          s.drop (g.getLastI + 1 + off).toNat).length = s.length + 14 := by
      simp only [List.length_append, List.length_take, List.length_drop, markOpen, markClose]
      simp only [String.toList]
      norm_num
      omega
    rw [ih _ _ (by rw [hlen]; exact h4)]
    rw [hlen]
    simp only [List.length_cons]
    ring

/-- C10: for every pair of strings, the removal groups computed by
`get_diff_removals` are sound for the splicing loop of `get_diff`: every index
is a valid character index into `first`, each group is a nonempty run of
consecutive indices, successive groups are separated by a gap greater than one
(maximal runs, strictly ascending), every slice position of the splicing loop
stays within the bounds of the string being marked, and each splice grows the
marked string by exactly the 14 delimiter characters. -/
theorem c10_removals_safety (first second : List Char) :
    (∀ g ∈ get_diff_removals first second,
        g ≠ [] ∧ (∀ i ∈ g, 0 ≤ i ∧ i < (first.length : Int)) ∧
        List.Chain' (fun x y => y = x + 1) g) ∧
    List.Chain' (fun g h => g.getLastI + 1 < h.headI) (get_diff_removals first second) ∧
    spliceStepsOk first.length 0 (get_diff_removals first second) ∧
    (spliceGo first 0 (get_diff_removals first second)).length
      = first.length + 14 * (get_diff_removals first second).length := by
  have hl : removedAux 0 0 (ndiffModel first second)
      = delIdx 0 (ndiffModel first second) := by
    simpa using removedAux_eq_delIdx (ndiffModel first second) 0 0
  have hbounds : ∀ e ∈ delIdx 0 (ndiffModel first second),
      0 ≤ e ∧ e < (first.length : Int) := by
    intro e he
    refine ⟨delIdx_lower _ 0 e he, ?_⟩
    have := delIdx_upper _ 0 e he
    rwa [fromFirst_ndiffModel, zero_add] at this
  have hchain := delIdx_chain (ndiffModel first second) 0
  have hgr : get_diff_removals first second
      = groupRuns (delIdx 0 (ndiffModel first second)) := by
    rw [get_diff_removals, hl]
  have hg := groupRuns_spec (first.length : Int) (delIdx 0 (ndiffModel first second))
    hbounds hchain
  rw [hgr]
  have hsso := spliceStepsOk_of (groupRuns (delIdx 0 (ndiffModel first second)))
    first.length 0 (le_refl 0) hg.1
  simp only [Int.toNat_zero, Nat.add_zero] at hsso
  exact ⟨hg.1, hg.2, hsso, spliceGo_length _ _ _ hsso⟩
